import Mathlib

set_option maxHeartbeats 1000000

/-
Shallow embedding of GitQlient's repository-loading subsystem
(src/src/git/GitRepoLoader.cpp).  Qt string/byte-array primitives are
modelled over `String`/`List Char`; external command executions are
modelled by a `Snapshot` record holding the outcome each command would
produce; the `RevisionsCache` collaborator is modelled by the trace of
insertions the loader performs on it.
-/

namespace GitQlient

/-- Result of running an external git command: success flag plus the captured
textual output (models the value returned by GitBase::run). -/
structure CmdResult where
  success : Bool
  output : String
deriving DecidableEq, Repr

/-! ### Qt string primitives

QString / QByteArray operations used by GitRepoLoader.cpp, modelled over
`List Char` (the loader only ever handles ASCII git output, so QString's
UTF-16 units coincide with characters). -/

/-- Core of QString::split / QByteArray::split with a one-character separator and
Qt's KeepEmptyParts behaviour: cut at every occurrence of the separator, keeping
empty pieces; an empty input yields one empty piece. -/
def splitOnCharAux (c : Char) : List Char → List (List Char)
  | [] => [[]]
  | x :: xs =>
    match splitOnCharAux c xs with
    | [] => [[]]
    | t :: ts => if x = c then [] :: t :: ts else (x :: t) :: ts

/-- QString::split(sep) with KeepEmptyParts (likewise QByteArray::split(sep)). -/
def qsplit (c : Char) (s : String) : List String :=
  (splitOnCharAux c s.data).map (fun l => ⟨l⟩)

/-- QString::split(sep, QString::SkipEmptyParts): the empty pieces are dropped. -/
def qsplitSkip (c : Char) (s : String) : List String :=
  (qsplit c s).filter (fun x => decide (x ≠ ""))

/-- QString::startsWith. -/
def qstartsWith (s p : String) : Bool := decide (p.data <+: s.data)

/-- QString::endsWith. -/
def qendsWith (s p : String) : Bool := decide (p.data <:+ s.data)

/-- QString::contains(QString): substring containment. -/
def qcontains (s p : String) : Bool := decide (p.data <:+: s.data)

/-- QString::left(n): the first n characters. -/
def qleft (s : String) (n : Nat) : String := ⟨s.data.take n⟩

/-- QString::mid(n): everything from position n on.  The source's
`refName.mid(10, reference.length())` passes a maximum length at least as large
as what remains, so it too is a plain drop. -/
def qmid (s : String) (n : Nat) : String := ⟨s.data.drop n⟩

/-- QString::replace(char, "") as used by `toMaster.replace('\n', "")`: every
occurrence of the character is removed. -/
def qremoveChar (s : String) (c : Char) : String :=
  ⟨s.data.filter (fun x => decide (x ≠ c))⟩

/-- Core of QString::remove(QString): scan left to right, deleting each
occurrence of the pattern and resuming the scan right after the deleted
occurrence (Qt continues its indexOf search from the removal position). -/
def removeAllAux (p : List Char) : List Char → List Char
  | [] => []
  | x :: xs =>
    if h : p ≠ [] ∧ p <+: (x :: xs) then removeAllAux p ((x :: xs).drop p.length)
    else x :: removeAllAux p xs
termination_by l => l.length
decreasing_by
· have hp : 0 < p.length := List.length_pos.mpr h.1
  simp only [List.length_drop, List.length_cons]
  omega
· simp

/-- QString::remove(QString): removes every occurrence of the pattern. -/
def qremove (s pat : String) : String := ⟨removeAllAux pat.data s.data⟩

/-- QString::trimmed: leading and trailing whitespace removed. -/
def qtrim (s : String) : String :=
  ⟨((s.data.dropWhile Char.isWhitespace).reverse.dropWhile Char.isWhitespace).reverse⟩

/-- QString::toUInt(): the numeric value when the whole string is a decimal
number, 0 on conversion error (the leading-plus-sign and 32-bit overflow
corner cases are not reached by the distance outputs this model parses). -/
def qtoUInt (s : String) : Nat :=
  if s.data ≠ [] ∧ s.data.all Char.isDigit then
    s.data.foldl (fun n c => n * 10 + (c.toNat - '0'.toNat)) 0
  else 0

/-! ### Data model -/

/-- References::Type from the source: the three reference classifications the
loader inserts. -/
inductive RefType where
  | Tag
  | LocalBranch
  | RemoteBranches
deriving DecidableEq, Repr

/-- One reference insertion performed by `mRevCache->insertReference(revSha, type, name)`. -/
structure Reference where
  sha : String
  type : RefType
  name : String
deriving DecidableEq, Repr

/-- Modelled from the spec: `RevisionsCache::LocalBranchDistances` is declared in
RevisionsCache.h, which is not among the sources; the spec fixes its fields as
the four non-negative counts, each defaulting to 0 when the comparison command
reports a failure. -/
structure LocalBranchDistances where
  aheadMaster : Nat := 0
  behindMaster : Nat := 0
  aheadOrigin : Nat := 0
  behindOrigin : Nat := 0
deriving DecidableEq, Repr

/-- The RevisionsCache collaborator, modelled by the record of the calls the
loader makes into it: historical commit insertions (sequence index paired with
the raw token the CommitInfo was built from, in insertion order), the
working-in-progress commit slot (the pending-changes record, which the cache
keeps at position 0, separate from the 1-based historical indices), the
untracked-file list, reference insertions in order, local-branch distance
insertions in order, and the total passed to `configure`. -/
structure Cache where
  commits : List (Nat × String) := []
  wip : Option (String × String × String) := none
  untracked : List String := []
  refs : List Reference := []
  distances : List (String × LocalBranchDistances) := []
  configuredTotal : Nat := 0
deriving DecidableEq, Repr

/-- State of the loader together with the piece of GitBase state it touches:
the single-flight flag `mLocked`, the working directory, and the cache. -/
structure LoaderState where
  mLocked : Bool
  workingDir : String
  cache : Cache

/-- One repository snapshot: the outcome every external command would produce
during a load cycle.  Fixing a snapshot makes the whole cycle a pure function,
which is exactly the reading under which the spec's idempotence property is
stated. -/
structure Snapshot where
  /-- git rev-parse --show-cdup -/
  revParseCdup : CmdResult
  /-- git show-ref -d -/
  showRef : CmdResult
  /-- GitBase::getLastCommit (its result is computed but unused by loadReferences) -/
  lastCommit : CmdResult
  /-- GitBranches::getDistanceBetweenBranches(true, name).output -/
  distToMaster : String → String
  /-- GitBranches::getDistanceBetweenBranches(false, name).output -/
  distToOrigin : String → String
  /-- the byte array the asynchronous log command delivers to processRevision -/
  logBuffer : String
  /-- git rev-parse --revs-only HEAD -/
  revParseHead : CmdResult
  /-- git diff-index <sha> -/
  diffIndex : CmdResult
  /-- git diff-index --cached <sha> -/
  diffIndexCached : CmdResult
  /-- QFile::exists(workingDir + "/.git/info/exclude") -/
  excludeFileExists : Bool
  /-- git ls-files --others ... -/
  lsFilesOthers : CmdResult

/-- Observable actions of one load cycle: the signals the loader emits and the
cache mutations it performs, in program order. -/
inductive Event where
  | cacheConfigured (total : Nat)
  | loadingStarted (total : Nat)
  | wipInserted
  | commitInserted (idx : Nat) (token : String)
  | loadingStep (idx : Nat)
  | lockCleared
  | refInserted (sha : String) (type : RefType) (name : String)
  | distancesInserted (name : String)
  | loadingFinished
deriving DecidableEq, Repr

/-! ### The loader's operations, translated from GitRepoLoader.cpp -/

/-- GitRepoLoader::configureRepoDirectory: run `git rev-parse --show-cdup`; on
success compose the true root as workingDir/offset and store it (the
QDir::absolutePath normalisation of `.`/`..` segments is filesystem
normalisation left unmodelled - no claim depends on the normalised spelling),
on failure leave the working directory unchanged. -/
def configureRepoDirectory (snap : Snapshot) (st : LoaderState) : Bool × LoaderState :=
  if snap.revParseCdup.success then
    (true, { st with workingDir := st.workingDir ++ "/" ++ qtrim snap.revParseCdup.output })
  else (false, st)

/-- GitRepoLoader::loadRepository (lines 23-55).  Returns the success flag, the
state after the call, and the external commands the call issued.  The mLocked
check, the working-directory check, the cache clear, the setting of mLocked,
and the root resolution follow the source line by line; on resolution success
the source additionally updates the current branch and fires the asynchronous
log request whose completion later reaches processRevision. -/
def loadRepository (snap : Snapshot) (st : LoaderState) : Bool × LoaderState × List String :=
  if st.mLocked then
    (false, st, [])
  else if st.workingDir = "" then
    (false, st, [])
  else
    let st1 : LoaderState := { st with cache := {} }
    let st2 : LoaderState := { st1 with mLocked := true }
    let cfg := configureRepoDirectory snap st2
    if cfg.1 then
      (true, cfg.2, ["git rev-parse --show-cdup"])
    else
      (false, cfg.2, ["git rev-parse --show-cdup"])

/-- GitRepoLoader::loadReferences, classification of one line of
`git show-ref -d` output (lines 93-120): the 40-character hash, the reference
name after the separating space, the gate that lets every non-tag line and
only the dereferenced (trailing `^{}`) tag lines through, and the three-way
classification. -/
def classifyReference (reference : String) : Option (String × RefType × String) :=
  let revSha := qleft reference 40
  let refName := qmid reference 41
  if !(qstartsWith refName "refs/tags/")
      || (qstartsWith refName "refs/tags/" && qendsWith refName "^{}") then
    if qstartsWith refName "refs/tags/" then
      some (revSha, RefType.Tag, qremove (qmid refName 10) "^{}")
    else if qstartsWith refName "refs/heads/" then
      some (revSha, RefType.LocalBranch, qmid refName 11)
    else if qstartsWith refName "refs/remotes/" && !(qendsWith refName "HEAD") then
      some (revSha, RefType.RemoteBranches, qmid refName 13)
    else
      none
  else
    none

/-- GitRepoLoader::loadReferences, distance computation for one local branch
(lines 126-151): each of the two comparison outputs is used only when it does
not contain "fatal"; the newline is stripped, the output is split on tab, and
first/last fields become behind/ahead.  The fields of a comparison whose
output contains "fatal" keep their default 0. -/
def parseDistances (toMasterOut toOriginOut : String) : LocalBranchDistances :=
  let distances : LocalBranchDistances := {}
  let distances :=
    if !(qcontains toMasterOut "fatal") then
      let toMaster := qremoveChar toMasterOut '\n'
      let values := qsplit '\t' toMaster
      { distances with
        behindMaster := qtoUInt (values.headD ""), aheadMaster := qtoUInt (values.getLastD "") }
    else distances
  if !(qcontains toOriginOut "fatal") then
    let toOrigin := qremoveChar toOriginOut '\n'
    let values := qsplit '\t' toOrigin
    { distances with
      behindOrigin := qtoUInt (values.headD ""), aheadOrigin := qtoUInt (values.getLastD "") }
  else distances

/-- Body of the loadReferences loop for one reference line: classify it; on a
classification insert the reference, and for a local branch additionally run
the two distance comparisons and insert the parsed distances. -/
def refStep (snap : Snapshot) (cache : Cache) (reference : String) : Cache × List Event :=
  match classifyReference reference with
  | none => (cache, [])
  | some (sha, type, name) =>
    let cache1 : Cache := { cache with refs := cache.refs ++ [⟨sha, type, name⟩] }
    if type = RefType.LocalBranch then
      let d := parseDistances (snap.distToMaster name) (snap.distToOrigin name)
      ({ cache1 with distances := cache1.distances ++ [(name, d)] },
       [Event.refInserted sha type name, Event.distancesInserted name])
    else
      (cache1, [Event.refInserted sha type name])

/-- The loadReferences loop over the (SkipEmptyParts) lines of show-ref output. -/
def refLoop (snap : Snapshot) : List String → Cache → Cache × List Event
  | [], cache => (cache, [])
  | r :: rs, cache =>
    let s := refStep snap cache r
    let rest := refLoop snap rs s.1
    (rest.1, s.2 ++ rest.2)

/-- GitRepoLoader::loadReferences (lines 74-158): nothing happens unless
`git show-ref -d` succeeds; its output is split into non-empty lines and each
line is processed in order.  (The getLastCommit call and the curBranchSHA /
prevRefSha variables of the source are dead in this routine: no decision is
taken on them.) -/
def loadReferences (snap : Snapshot) (cache : Cache) : Cache × List Event :=
  if snap.showRef.success then
    refLoop snap (qsplitSkip '\n' snap.showRef.output) cache
  else (cache, [])

/-- Command string built by GitRepoLoader::getUntrackedFiles (lines 238-245):
the exclude-from argument appears exactly when the repository's
.git/info/exclude file exists; the per-directory .gitignore exclusion is
always appended. -/
def untrackedFilesCmd (excludeFileExists : Bool) : String :=
  let runCmd := "git ls-files --others"
  let runCmd :=
    if excludeFileExists then runCmd ++ " --exclude-from=$.git/info/exclude$" else runCmd
  runCmd ++ " --exclude-per-directory=$.gitignore$"

/-- GitRepoLoader::getUntrackedFiles, the processing of the command output
(line 247): split on newline with SkipEmptyParts and convert to a vector.  The
output is used whether or not the command reported success. -/
def untrackedFromOutput (out : String) : List String :=
  qsplitSkip '\n' out

/-- GitRepoLoader::updateWipRevision (lines 212-232): store the untracked-file
list; when the HEAD lookup succeeds, take each diff-index output (empty on
failure of that diff) and insert the pending-changes (WIP) record. -/
def updateWipRevision (snap : Snapshot) (cache : Cache) : Cache × List Event :=
  let cache1 : Cache := { cache with untracked := untrackedFromOutput snap.lsFilesOthers.output }
  if snap.revParseHead.success then
    let parentSha := qtrim snap.revParseHead.output
    let diffIndex := if snap.diffIndex.success then snap.diffIndex.output else ""
    let diffIndexCached := if snap.diffIndexCached.success then snap.diffIndexCached.output else ""
    ({ cache1 with wip := some (parentSha, diffIndex, diffIndexCached) }, [Event.wipInserted])
  else
    (cache1, [])

/-- The ingestion loop of GitRepoLoader::processRevision (lines 193-203):
tokens are taken in order; a valid one is inserted with the running 1-based
count and a step event carrying that count is emitted, the first invalid one
breaks out of the loop.  Validity of a token is the external
CommitInfo(token).isValid() call, passed in as a predicate. -/
def insertLoop (isValid : String → Bool) : Nat → List String → Cache → Cache × List Event
  | _, [], cache => (cache, [])
  | count, t :: ts, cache =>
    if isValid t then
      let cache1 : Cache := { cache with commits := cache.commits ++ [(count, t)] }
      let rest := insertLoop isValid (count + 1) ts cache1
      (rest.1, Event.commitInserted count t :: Event.loadingStep count :: rest.2)
    else
      (cache, [])

/-- GitRepoLoader::processRevision (lines 175-210): split the delivered buffer
on the NUL byte, configure the cache with the token count and announce it,
synthesize the pending-changes record, run the ingestion loop starting at
count 1, clear the in-progress flag, run loadReferences synchronously, and
finish. -/
def processRevision (isValid : String → Bool) (snap : Snapshot) (st : LoaderState) :
    LoaderState × List Event :=
  let commits := qsplit (Char.ofNat 0) snap.logBuffer
  let totalCommits := commits.length
  let cache0 : Cache := { st.cache with configuredTotal := totalCommits }
  let w := updateWipRevision snap cache0
  let l := insertLoop isValid 1 commits w.1
  let r := loadReferences snap l.1
  ({ st with mLocked := false, cache := r.1 },
   Event.cacheConfigured totalCommits :: Event.loadingStarted totalCommits ::
     (w.2 ++ (l.2 ++ (Event.lockCleared :: (r.2 ++ [Event.loadingFinished])))))

/-- One complete load cycle against a fixed snapshot: the synchronous
loadRepository call followed, when it succeeded, by the asynchronous delivery
of the log buffer to processRevision. -/
def fullLoadCycle (isValid : String → Bool) (snap : Snapshot) (st : LoaderState) :
    LoaderState × List Event :=
  let r := loadRepository snap st
  if r.1 then processRevision isValid snap r.2.1 else (r.2.1, [])

/-- Modelled from the spec: CommitInfo's constructor and isValid() live outside
the sources; per the spec a token is valid exactly when its hash and its
mark/parent fields parsed, i.e. when the one-character marker, the
40-character hash and the `X` delimiter introducing the parent list are all
present (the `X` sits at character position 41 of the token). -/
def isValidCommitToken (t : String) : Bool :=
  match t.data.drop 41 with
  | 'X' :: _ => true
  | _ => false

/-! ### Observation helpers on event traces -/

/-- The index carried by a loading-step event. -/
def stepIndexOf : Event → Option Nat
  | Event.loadingStep i => some i
  | _ => none

/-- The (index, token) pair carried by a commit-insertion event. -/
def commitEntryOf : Event → Option (Nat × String)
  | Event.commitInserted i t => some (i, t)
  | _ => none

/-- The event sequence the ingestion loop emits for a list of inserted
(index, token) pairs: insertion then step, per pair. -/
def loopEventsOf : List (Nat × String) → List Event
  | [] => []
  | p :: rest => Event.commitInserted p.1 p.2 :: Event.loadingStep p.1 :: loopEventsOf rest

/-- Boolean temporal order on a trace: every p-event occurs strictly before
every q-event (vacuously true when either kind is absent). -/
def precedes (p q : Event → Bool) (l : List Event) : Bool :=
  (l.dropWhile (fun e => !(q e))).all (fun e => !(p e))

/-! ### Helper lemmas -/

theorem mem_of_dropWhile {α} {f : α → Bool} :
    ∀ {l : List α} {e : α}, e ∈ l.dropWhile f → e ∈ l := by
  intro l
  induction l with
  | nil => intro e h; simpa using h
  | cons a l ih =>
    intro e h
    by_cases hf : f a
    · rw [List.dropWhile_cons_of_pos hf] at h
      exact List.mem_cons_of_mem _ (ih h)
    · rw [List.dropWhile_cons_of_neg hf] at h
      exact h

theorem filterMap_none {α β} (f : α → Option β) :
    ∀ (l : List α), (∀ e ∈ l, f e = none) → l.filterMap f = [] := by
  intro l
  induction l with
  | nil => intro _; rfl
  | cons a l ih =>
    intro h
    rw [List.filterMap_cons, h a (List.mem_cons_self a l)]
    exact ih (fun e he => h e (List.mem_cons_of_mem _ he))

theorem precedes_append_of {p q : Event → Bool} (l₁ l₂ : List Event)
    (h1 : ∀ e ∈ l₁, q e = false) (h2 : ∀ e ∈ l₂, p e = false) :
    precedes p q (l₁ ++ l₂) = true := by
  revert h1
  induction l₁ with
  | nil =>
    intro _
    simp only [List.nil_append, precedes, List.all_eq_true]
    intro e he
    simp [h2 e (mem_of_dropWhile he)]
  | cons a l ih =>
    intro h1
    have hq : q a = false := h1 a (List.mem_cons_self a l)
    have hrest := ih (fun e he => h1 e (List.mem_cons_of_mem _ he))
    simpa [precedes, List.cons_append, List.dropWhile, hq] using hrest

theorem enumFromFst {α} : ∀ (k : Nat) (l : List α),
    (List.enumFrom k l).map Prod.fst = List.range' k l.length := by
  intro k l
  induction l generalizing k with
  | nil => simp [List.enumFrom]
  | cons a l ih => simp [List.enumFrom, List.range'_succ, ih]

/-! ### Characterisation of the ingestion loop -/

theorem insertLoop_fst (v : String → Bool) :
    ∀ (ts : List String) (k : Nat) (c : Cache),
      (insertLoop v k ts c).1
        = { c with commits := c.commits ++ List.enumFrom k (ts.takeWhile v) } := by
  intro ts
  induction ts with
  | nil => intro k c; simp [insertLoop, List.enumFrom]
  | cons t ts ih =>
    intro k c
    by_cases hv : v t
    · simp [insertLoop, hv, ih, List.enumFrom, List.takeWhile_cons, List.append_assoc]
    · simp [insertLoop, hv, List.takeWhile_cons]

theorem insertLoop_snd (v : String → Bool) :
    ∀ (ts : List String) (k : Nat) (c : Cache),
      (insertLoop v k ts c).2 = loopEventsOf (List.enumFrom k (ts.takeWhile v)) := by
  intro ts
  induction ts with
  | nil => intro k c; simp [insertLoop, List.enumFrom, loopEventsOf]
  | cons t ts ih =>
    intro k c
    by_cases hv : v t
    · simp [insertLoop, hv, ih, List.enumFrom, List.takeWhile_cons, loopEventsOf]
    · simp [insertLoop, hv, List.takeWhile_cons, loopEventsOf]

theorem loopEventsOf_mem :
    ∀ (l : List (Nat × String)), ∀ e ∈ loopEventsOf l,
      (∃ i t, e = Event.commitInserted i t) ∨ (∃ i, e = Event.loadingStep i) := by
  intro l
  induction l with
  | nil => intro e he; simp [loopEventsOf] at he
  | cons p rest ih =>
    intro e he
    simp only [loopEventsOf, List.mem_cons] at he
    rcases he with h | h | h
    · exact Or.inl ⟨p.1, p.2, h⟩
    · exact Or.inr ⟨p.1, h⟩
    · exact ih e h

theorem loopEventsOf_filterMap_step :
    ∀ (l : List (Nat × String)), (loopEventsOf l).filterMap stepIndexOf = l.map Prod.fst := by
  intro l
  induction l with
  | nil => rfl
  | cons p rest ih => simp [loopEventsOf, List.filterMap_cons, stepIndexOf, ih]

theorem loopEventsOf_filterMap_commit :
    ∀ (l : List (Nat × String)), (loopEventsOf l).filterMap commitEntryOf = l := by
  intro l
  induction l with
  | nil => rfl
  | cons p rest ih => simp [loopEventsOf, List.filterMap_cons, commitEntryOf, ih]

/-! ### Characterisation of the wip synthesis and the reference loop -/

theorem updateWip_commits (snap : Snapshot) (c : Cache) :
    (updateWipRevision snap c).1.commits = c.commits := by
  by_cases h : snap.revParseHead.success <;> simp [updateWipRevision, h]

theorem updateWip_evs (snap : Snapshot) (c : Cache) :
    (updateWipRevision snap c).2 = [] ∨ (updateWipRevision snap c).2 = [Event.wipInserted] := by
  by_cases h : snap.revParseHead.success
  · exact Or.inr (by simp [updateWipRevision, h])
  · exact Or.inl (by simp [updateWipRevision, h])

theorem updateWip_wip_some (snap : Snapshot) (c : Cache)
    (h : snap.revParseHead.success = true) :
    (updateWipRevision snap c).1.wip.isSome = true := by
  simp [updateWipRevision, h]

theorem refStep_preserves (snap : Snapshot) (c : Cache) (r : String) :
    (refStep snap c r).1.commits = c.commits ∧ (refStep snap c r).1.wip = c.wip := by
  rcases h : classifyReference r with _ | ⟨sha, type, name⟩
  · simp [refStep, h]
  · by_cases ht : type = RefType.LocalBranch <;> simp [refStep, h, ht]

theorem refStep_mem (snap : Snapshot) (c : Cache) (r : String) :
    ∀ e ∈ (refStep snap c r).2,
      (∃ s t n, e = Event.refInserted s t n) ∨ (∃ n, e = Event.distancesInserted n) := by
  intro e he
  rcases h : classifyReference r with _ | ⟨sha, type, name⟩
  · simp [refStep, h] at he
  · by_cases ht : type = RefType.LocalBranch
    · have he' : e = Event.refInserted sha RefType.LocalBranch name
          ∨ e = Event.distancesInserted name := by
        simpa [refStep, h, ht] using he
      obtain he' | he' := he'
      · exact Or.inl ⟨sha, RefType.LocalBranch, name, he'⟩
      · exact Or.inr ⟨name, he'⟩
    · have he' : e = Event.refInserted sha type name := by
        simpa [refStep, h, ht] using he
      exact Or.inl ⟨sha, type, name, he'⟩

theorem refLoop_preserves (snap : Snapshot) :
    ∀ (rs : List String) (c : Cache),
      (refLoop snap rs c).1.commits = c.commits ∧ (refLoop snap rs c).1.wip = c.wip := by
  intro rs
  induction rs with
  | nil => intro c; simp [refLoop]
  | cons r rs ih =>
    intro c
    have hs := refStep_preserves snap c r
    have hr := ih (refStep snap c r).1
    exact ⟨by simp [refLoop, hr.1, hs.1], by simp [refLoop, hr.2, hs.2]⟩

theorem refLoop_mem (snap : Snapshot) :
    ∀ (rs : List String) (c : Cache), ∀ e ∈ (refLoop snap rs c).2,
      (∃ s t n, e = Event.refInserted s t n) ∨ (∃ n, e = Event.distancesInserted n) := by
  intro rs
  induction rs with
  | nil => intro c e he; simp [refLoop] at he
  | cons r rs ih =>
    intro c e he
    simp only [refLoop, List.mem_append] at he
    rcases he with he | he
    · exact refStep_mem snap c r e he
    · exact ih _ e he

theorem loadReferences_preserves (snap : Snapshot) (c : Cache) :
    (loadReferences snap c).1.commits = c.commits ∧ (loadReferences snap c).1.wip = c.wip := by
  by_cases h : snap.showRef.success
  · simpa [loadReferences, h] using refLoop_preserves snap (qsplitSkip '\n' snap.showRef.output) c
  · simp [loadReferences, h]

theorem loadReferences_mem (snap : Snapshot) (c : Cache) :
    ∀ e ∈ (loadReferences snap c).2,
      (∃ s t n, e = Event.refInserted s t n) ∨ (∃ n, e = Event.distancesInserted n) := by
  intro e he
  by_cases h : snap.showRef.success
  · rw [loadReferences, if_pos h] at he
    exact refLoop_mem snap _ c e he
  · rw [loadReferences, if_neg h] at he
    simp at he

/-! ### Concrete fixtures used by the witnesses -/

/-- A loader state ready to load: not locked, a working directory set, empty cache. -/
def stReady : LoaderState := { mLocked := false, workingDir := "/repo", cache := {} }

/-- The same state while a load is in flight. -/
def stLocked : LoaderState := { stReady with mLocked := true }

/-- A commit token the CommitInfo grammar accepts: marker character,
40-character hash, the X delimiter, then the newline-separated fields. -/
def sampleToken : String :=
  ⟨'m' :: (List.replicate 40 'a' ++ ('X' :: "\nc<c@x>\na<a@x>\n7\nsubject\nbody ".data))⟩

/-- A snapshot on which every command succeeds: a log buffer of two tokens (the
second malformed), one local branch and one dereferenced tag, one untracked
file. -/
def snapOk : Snapshot where
  revParseCdup := ⟨true, "\n"⟩
  showRef := ⟨true,
    "aaaaaaaaaaaaaaaaaaaaaaaaaaaaaaaaaaaaaaaa refs/heads/main\nbbbbbbbbbbbbbbbbbbbbbbbbbbbbbbbbbbbbbbbb refs/tags/v1^{}"⟩
  lastCommit := ⟨true, "aaaaaaaaaaaaaaaaaaaaaaaaaaaaaaaaaaaaaaaa"⟩
  distToMaster := fun _ => "2\t5"
  distToOrigin := fun _ => "0\t3"
  logBuffer := sampleToken ++ "\x00" ++ "garbage"
  revParseHead := ⟨true, "aaaaaaaaaaaaaaaaaaaaaaaaaaaaaaaaaaaaaaaa\n"⟩
  diffIndex := ⟨true, "diff"⟩
  diffIndexCached := ⟨true, "diffc"⟩
  excludeFileExists := true
  lsFilesOthers := ⟨true, "foo.txt\n"⟩

/-- snapOk with the root-resolution command failing. -/
def snapBadRoot : Snapshot := { snapOk with revParseCdup := ⟨false, ""⟩ }

/-! ### Claim theorems -/

/-- C4: a loadRepository() call made while a load is already in progress
returns failure, leaves the state (cache contents and in-progress flag
included) completely untouched, and issues no external command. -/
theorem loadRepository_concurrent_rejected (snap : Snapshot) (st : LoaderState)
    (h : st.mLocked = true) :
    loadRepository snap st = (false, st, []) := by
  simp [loadRepository, h]

/-- Witness for loadRepository_concurrent_rejected at a concrete locked state. -/
theorem loadRepository_concurrent_rejected_witness :
    stLocked.mLocked = true ∧ loadRepository snapOk stLocked = (false, stLocked, []) :=
  ⟨rfl, loadRepository_concurrent_rejected snapOk stLocked rfl⟩

/-- C1, what the code actually does at the claim's scenario: with no load in
progress, a working directory set, and the root-resolution command failing,
loadRepository() returns failure but leaves the in-progress flag SET (line 37
of the source sets mLocked and the failure path never clears it), so the next
loadRepository() call is rejected as a concurrent load and changes nothing.
The spec instead requires the flag to be cleared on resolution failure. -/
theorem loadRepository_root_failure_keeps_lock (snap : Snapshot) (st : LoaderState)
    (h1 : st.mLocked = false) (h2 : ¬ st.workingDir = "")
    (h3 : snap.revParseCdup.success = false) :
    (loadRepository snap st).1 = false
    ∧ (loadRepository snap st).2.1.mLocked = true
    ∧ loadRepository snap (loadRepository snap st).2.1
        = (false, (loadRepository snap st).2.1, []) := by
  have hst : loadRepository snap st
      = (false, { st with cache := {}, mLocked := true }, ["git rev-parse --show-cdup"]) := by
    simp [loadRepository, configureRepoDirectory, h1, h2, h3]
  rw [hst]
  refine ⟨rfl, rfl, ?_⟩
  simp [loadRepository]

/-- Witness for loadRepository_root_failure_keeps_lock at a concrete ready
state and failing snapshot. -/
theorem loadRepository_root_failure_keeps_lock_witness :
    stReady.mLocked = false ∧ ¬ stReady.workingDir = ""
    ∧ snapBadRoot.revParseCdup.success = false
    ∧ ((loadRepository snapBadRoot stReady).1 = false
      ∧ (loadRepository snapBadRoot stReady).2.1.mLocked = true
      ∧ loadRepository snapBadRoot (loadRepository snapBadRoot stReady).2.1
          = (false, (loadRepository snapBadRoot stReady).2.1, [])) :=
  ⟨rfl, by decide, rfl,
    loadRepository_root_failure_keeps_lock snapBadRoot stReady rfl (by decide) rfl⟩

/-- C8: for each of the two comparison pairs of a local branch, an output of
the form behind TAB ahead (after the newline strip, splitting on tab gives the
two fields) yields the parsed behind/ahead counts for that pair, while an
output containing "fatal" leaves both counts of that pair at their default 0
instead of propagating an error. -/
theorem parseDistances_pairs (toM toO bs as : String) :
    ((qcontains toM "fatal" = false → qsplit '\t' (qremoveChar toM '\n') = [bs, as] →
        (parseDistances toM toO).behindMaster = qtoUInt bs
        ∧ (parseDistances toM toO).aheadMaster = qtoUInt as)
      ∧ (qcontains toM "fatal" = true →
        (parseDistances toM toO).behindMaster = 0
        ∧ (parseDistances toM toO).aheadMaster = 0))
    ∧ ((qcontains toO "fatal" = false → qsplit '\t' (qremoveChar toO '\n') = [bs, as] →
        (parseDistances toM toO).behindOrigin = qtoUInt bs
        ∧ (parseDistances toM toO).aheadOrigin = qtoUInt as)
      ∧ (qcontains toO "fatal" = true →
        (parseDistances toM toO).behindOrigin = 0
        ∧ (parseDistances toM toO).aheadOrigin = 0)) := by
  refine ⟨⟨?_, ?_⟩, ⟨?_, ?_⟩⟩ <;> intro h
  · intro hsplit
    cases hO : qcontains toO "fatal" <;>
      simp [parseDistances, h, hO, hsplit]
  · cases hO : qcontains toO "fatal" <;>
      simp [parseDistances, h, hO]
  · intro hsplit
    cases hM : qcontains toM "fatal" <;>
      simp [parseDistances, h, hM, hsplit]
  · cases hM : qcontains toM "fatal" <;>
      simp [parseDistances, h, hM]

/-- Witness for parseDistances_pairs: the spec's own example output 2 TAB 5 for
the master pair together with a fatal origin output. -/
theorem parseDistances_pairs_witness :
    qcontains "2\t5" "fatal" = false
    ∧ qcontains "fatal: no upstream" "fatal" = true
    ∧ (parseDistances "2\t5" "fatal: no upstream").behindMaster = 2
    ∧ (parseDistances "2\t5" "fatal: no upstream").aheadMaster = 5
    ∧ (parseDistances "2\t5" "fatal: no upstream").behindOrigin = 0
    ∧ (parseDistances "2\t5" "fatal: no upstream").aheadOrigin = 0 := by
  have h := parseDistances_pairs "2\t5" "fatal: no upstream" "2" "5"
  have hm := h.1.1 (by decide) (by decide)
  have ho := h.2.2 (by decide)
  exact ⟨by decide, by decide, hm.1.trans (by decide), hm.2.trans (by decide), ho.1, ho.2⟩

/-- C5 counterexample: the untracked-file list is NOT deduplicated - a command
output repeating the same path yields both copies. -/
theorem untracked_files_not_deduplicated :
    untrackedFromOutput "a\na" = ["a", "a"]
    ∧ ¬ (untrackedFromOutput "a\na").Nodup := by
  constructor
  · decide
  · decide

/-- C5 as amended: the command carries the exclude-from argument exactly when
the repository's .git/info/exclude file exists and always carries the
per-directory .gitignore exclusion; the output is split into an
order-preserving sequence of its newline-separated entries with empty entries
discarded and duplicates kept as they come. -/
theorem untracked_cmd_and_split (ex : Bool) (out : String) :
    untrackedFilesCmd ex
      = "git ls-files --others"
        ++ (if ex then " --exclude-from=$.git/info/exclude$" else "")
        ++ " --exclude-per-directory=$.gitignore$"
    ∧ List.Sublist (untrackedFromOutput out) (qsplit '\n' out)
    ∧ (∀ x ∈ untrackedFromOutput out, x ≠ "")
    ∧ (∀ x ∈ qsplit '\n' out, x ≠ "" → x ∈ untrackedFromOutput out) := by
  refine ⟨?_, ?_, ?_, ?_⟩
  · cases ex <;> simp [untrackedFilesCmd]
  · exact List.filter_sublist _
  · intro x hx
    have h := List.mem_filter.mp hx
    simpa using h.2
  · intro x hx hne
    exact List.mem_filter.mpr ⟨hx, by simpa using hne⟩

/-- Witness for untracked_cmd_and_split: the exclude file exists; the output
has an empty middle entry and a repeated path. -/
theorem untracked_cmd_and_split_witness :
    untrackedFilesCmd true
      = "git ls-files --others --exclude-from=$.git/info/exclude$ --exclude-per-directory=$.gitignore$"
    ∧ "a" ∈ qsplit '\n' "a\n\na" ∧ "a" ≠ ""
    ∧ "a" ∈ untrackedFromOutput "a\n\na" := by
  refine ⟨(untracked_cmd_and_split true "a\n\na").1.trans (by decide), by decide, by decide, ?_⟩
  exact (untracked_cmd_and_split true "a\n\na").2.2.2 "a" (by decide) (by decide)

/-- A string starting with p cannot also start with a shorter q unless q is a
prefix of p: used to separate the refs/tags/, refs/heads/ and refs/remotes/
branches of the classification. -/
theorem qstartsWith_shorter_false (s p q : String)
    (hp : qstartsWith s p = true) (hlen : q.data.length ≤ p.data.length)
    (hnq : ¬ q.data <+: p.data) :
    qstartsWith s q = false := by
  have hp' : p.data <+: s.data := of_decide_eq_true hp
  have hq : ¬ q.data <+: s.data :=
    fun hq => hnq (List.prefix_of_prefix_length_le hq hp' hlen)
  exact decide_eq_false hq

/-- C2 counterexample: a reference-listing line under refs/tags/ with no
dereferenced marker is NOT kept - the classification drops it entirely,
whether or not a dereferenced counterpart exists elsewhere in the output. -/
theorem plain_tag_line_dropped :
    qstartsWith
        (qmid "aaaaaaaaaaaaaaaaaaaaaaaaaaaaaaaaaaaaaaaa refs/tags/v1" 41) "refs/tags/" = true
    ∧ classifyReference "aaaaaaaaaaaaaaaaaaaaaaaaaaaaaaaaaaaaaaaa refs/tags/v1" = none := by
  constructor
  · decide
  · decide

/-- C2 as amended: among the reference-listing lines under refs/tags/, exactly
the dereferenced ones (those ending in the marker) yield a Tag, with every
occurrence of the marker removed from the name; a plain tag line is skipped
even when no dereferenced counterpart exists. -/
theorem tag_lines_only_dereferenced (line : String)
    (hTag : qstartsWith (qmid line 41) "refs/tags/" = true) :
    classifyReference line =
      if qendsWith (qmid line 41) "^{}" = true then
        some (qleft line 40, RefType.Tag, qremove (qmid (qmid line 41) 10) "^{}")
      else none := by
  cases hE : qendsWith (qmid line 41) "^{}" <;>
    simp [classifyReference, hTag, hE]

/-- Witness for tag_lines_only_dereferenced at a concrete dereferenced tag line. -/
theorem tag_lines_only_dereferenced_witness :
    qstartsWith
        (qmid "bbbbbbbbbbbbbbbbbbbbbbbbbbbbbbbbbbbbbbbb refs/tags/v1^{}" 41) "refs/tags/" = true
    ∧ classifyReference "bbbbbbbbbbbbbbbbbbbbbbbbbbbbbbbbbbbbbbbb refs/tags/v1^{}" =
        if qendsWith (qmid "bbbbbbbbbbbbbbbbbbbbbbbbbbbbbbbbbbbbbbbb refs/tags/v1^{}" 41) "^{}" = true then
          some (qleft "bbbbbbbbbbbbbbbbbbbbbbbbbbbbbbbbbbbbbbbb refs/tags/v1^{}" 40, RefType.Tag,
            qremove (qmid (qmid "bbbbbbbbbbbbbbbbbbbbbbbbbbbbbbbbbbbbbbbb refs/tags/v1^{}" 41) 10) "^{}")
        else none :=
  ⟨by decide, tag_lines_only_dereferenced _ (by decide)⟩

/-- C7 counterexample: a remote-branch line whose name merely ENDS in the four
characters HEAD - it is not the literal per-remote HEAD alias - is excluded
all the same, against the claim that only the literal alias is excluded. -/
theorem remote_nonliteral_head_excluded :
    qmid "aaaaaaaaaaaaaaaaaaaaaaaaaaaaaaaaaaaaaaaa refs/remotes/origin/myHEAD" 41
      = "refs/remotes/origin/myHEAD"
    ∧ classifyReference "aaaaaaaaaaaaaaaaaaaaaaaaaaaaaaaaaaaaaaaa refs/remotes/origin/myHEAD"
      = none := by
  constructor
  · decide
  · decide

/-- C7 as amended: a refs/heads/ line is classified as a LocalBranch named by
everything after that prefix, and a refs/remotes/ line is classified as a
RemoteBranch named by everything after that prefix, except that every line
whose reference name ends in HEAD (the literal per-remote HEAD alias among
them) is excluded. -/
theorem branch_classification (line : String) :
    (qstartsWith (qmid line 41) "refs/heads/" = true →
      classifyReference line
        = some (qleft line 40, RefType.LocalBranch, qmid (qmid line 41) 11))
    ∧ (qstartsWith (qmid line 41) "refs/remotes/" = true →
      classifyReference line =
        if qendsWith (qmid line 41) "HEAD" = true then none
        else some (qleft line 40, RefType.RemoteBranches, qmid (qmid line 41) 13)) := by
  constructor
  · intro hh
    have hTagF : qstartsWith (qmid line 41) "refs/tags/" = false :=
      qstartsWith_shorter_false _ _ _ hh (by decide) (by decide)
    simp [classifyReference, hh, hTagF]
  · intro hr
    have hTagF : qstartsWith (qmid line 41) "refs/tags/" = false :=
      qstartsWith_shorter_false _ _ _ hr (by decide) (by decide)
    have hHeadsF : qstartsWith (qmid line 41) "refs/heads/" = false :=
      qstartsWith_shorter_false _ _ _ hr (by decide) (by decide)
    cases hE : qendsWith (qmid line 41) "HEAD" <;>
      simp [classifyReference, hr, hTagF, hHeadsF, hE]

/-- Witness for branch_classification at a concrete local-branch line and a
concrete remote-branch line. -/
theorem branch_classification_witness :
    qstartsWith
        (qmid "aaaaaaaaaaaaaaaaaaaaaaaaaaaaaaaaaaaaaaaa refs/heads/main" 41) "refs/heads/" = true
    ∧ classifyReference "aaaaaaaaaaaaaaaaaaaaaaaaaaaaaaaaaaaaaaaa refs/heads/main"
        = some (qleft "aaaaaaaaaaaaaaaaaaaaaaaaaaaaaaaaaaaaaaaa refs/heads/main" 40,
            RefType.LocalBranch,
            qmid (qmid "aaaaaaaaaaaaaaaaaaaaaaaaaaaaaaaaaaaaaaaa refs/heads/main" 41) 11)
    ∧ qstartsWith
        (qmid "aaaaaaaaaaaaaaaaaaaaaaaaaaaaaaaaaaaaaaaa refs/remotes/origin/main" 41)
        "refs/remotes/" = true
    ∧ classifyReference "aaaaaaaaaaaaaaaaaaaaaaaaaaaaaaaaaaaaaaaa refs/remotes/origin/main" =
        if qendsWith
            (qmid "aaaaaaaaaaaaaaaaaaaaaaaaaaaaaaaaaaaaaaaa refs/remotes/origin/main" 41)
            "HEAD" = true then none
        else
          some (qleft "aaaaaaaaaaaaaaaaaaaaaaaaaaaaaaaaaaaaaaaa refs/remotes/origin/main" 40,
            RefType.RemoteBranches,
            qmid (qmid "aaaaaaaaaaaaaaaaaaaaaaaaaaaaaaaaaaaaaaaa refs/remotes/origin/main" 41) 13) :=
  ⟨by decide,
    (branch_classification "aaaaaaaaaaaaaaaaaaaaaaaaaaaaaaaaaaaaaaaa refs/heads/main").1 (by decide),
    by decide,
    (branch_classification "aaaaaaaaaaaaaaaaaaaaaaaaaaaaaaaaaaaaaaaa refs/remotes/origin/main").2
      (by decide)⟩

/-! ### Structural equations for processRevision and further projections -/

theorem processRevision_fst_cache (v : String → Bool) (snap : Snapshot) (st : LoaderState) :
    (processRevision v snap st).1.cache
      = (loadReferences snap (insertLoop v 1 (qsplit (Char.ofNat 0) snap.logBuffer)
          (updateWipRevision snap
            { st.cache with
              configuredTotal := (qsplit (Char.ofNat 0) snap.logBuffer).length }).1).1).1 := rfl

theorem processRevision_mLocked (v : String → Bool) (snap : Snapshot) (st : LoaderState) :
    (processRevision v snap st).1.mLocked = false := rfl

theorem processRevision_workingDir (v : String → Bool) (snap : Snapshot) (st : LoaderState) :
    (processRevision v snap st).1.workingDir = st.workingDir := rfl

theorem processRevision_trace (v : String → Bool) (snap : Snapshot) (st : LoaderState) :
    (processRevision v snap st).2
      = Event.cacheConfigured (qsplit (Char.ofNat 0) snap.logBuffer).length
        :: Event.loadingStarted (qsplit (Char.ofNat 0) snap.logBuffer).length
        :: ((updateWipRevision snap
              { st.cache with
                configuredTotal := (qsplit (Char.ofNat 0) snap.logBuffer).length }).2
          ++ ((insertLoop v 1 (qsplit (Char.ofNat 0) snap.logBuffer)
                (updateWipRevision snap
                  { st.cache with
                    configuredTotal := (qsplit (Char.ofNat 0) snap.logBuffer).length }).1).2
            ++ (Event.lockCleared
              :: ((loadReferences snap (insertLoop v 1 (qsplit (Char.ofNat 0) snap.logBuffer)
                    (updateWipRevision snap
                      { st.cache with
                        configuredTotal :=
                          (qsplit (Char.ofNat 0) snap.logBuffer).length }).1).1).2
                ++ [Event.loadingFinished])))) := rfl

theorem insertLoop_commits (v : String → Bool) (ts : List String) (k : Nat) (c : Cache) :
    (insertLoop v k ts c).1.commits = c.commits ++ List.enumFrom k (ts.takeWhile v) := by
  rw [insertLoop_fst]

theorem insertLoop_wip (v : String → Bool) (ts : List String) (k : Nat) (c : Cache) :
    (insertLoop v k ts c).1.wip = c.wip := by
  rw [insertLoop_fst]

theorem loadReferences_commits (snap : Snapshot) (c : Cache) :
    (loadReferences snap c).1.commits = c.commits :=
  (loadReferences_preserves snap c).1

theorem loadReferences_wip (snap : Snapshot) (c : Cache) :
    (loadReferences snap c).1.wip = c.wip :=
  (loadReferences_preserves snap c).2

theorem updateWip_wip_field (snap : Snapshot) (c : Cache) :
    (updateWipRevision snap c).1.untracked = untrackedFromOutput snap.lsFilesOthers.output := by
  by_cases h : snap.revParseHead.success <;> simp [updateWipRevision, h]

theorem updateWip_evs_success (snap : Snapshot) (c : Cache)
    (h : snap.revParseHead.success = true) :
    (updateWipRevision snap c).2 = [Event.wipInserted] := by
  simp [updateWipRevision, h]

/-- Event shape elimination for the ingestion-loop events. -/
theorem loopEv_false_of {e : Event}
    (he : (∃ i t, e = Event.commitInserted i t) ∨ (∃ i, e = Event.loadingStep i))
    {p : Event → Bool} (h1 : ∀ i t, p (Event.commitInserted i t) = false)
    (h2 : ∀ i, p (Event.loadingStep i) = false) : p e = false := by
  rcases he with ⟨i, t, rfl⟩ | ⟨i, rfl⟩
  · exact h1 i t
  · exact h2 i

/-- Event shape elimination for the reference-population events. -/
theorem refEv_false_of {e : Event}
    (he : (∃ s t n, e = Event.refInserted s t n) ∨ (∃ n, e = Event.distancesInserted n))
    {p : Event → Bool} (h1 : ∀ s t n, p (Event.refInserted s t n) = false)
    (h2 : ∀ n, p (Event.distancesInserted n) = false) : p e = false := by
  rcases he with ⟨s, t, n, rfl⟩ | ⟨n, rfl⟩
  · exact h1 s t n
  · exact h2 n

/-- A reference-population event carries no step index. -/
theorem refEv_stepIndexOf_none {e : Event}
    (he : (∃ s t n, e = Event.refInserted s t n) ∨ (∃ n, e = Event.distancesInserted n)) :
    stepIndexOf e = none := by
  rcases he with ⟨s, t, n, rfl⟩ | ⟨n, rfl⟩ <;> rfl

/-- A reference-population event carries no commit entry. -/
theorem refEv_commitEntryOf_none {e : Event}
    (he : (∃ s t n, e = Event.refInserted s t n) ∨ (∃ n, e = Event.distancesInserted n)) :
    commitEntryOf e = none := by
  rcases he with ⟨s, t, n, rfl⟩ | ⟨n, rfl⟩ <;> rfl

/-- Kind discriminators for the ordering statements. -/
def isWipEv : Event → Bool
  | Event.wipInserted => true
  | _ => false

def isCommitEv : Event → Bool
  | Event.commitInserted _ _ => true
  | _ => false

def isStepEv : Event → Bool
  | Event.loadingStep _ => true
  | _ => false

def isStartedEv : Event → Bool
  | Event.loadingStarted _ => true
  | _ => false

def isLockEv : Event → Bool
  | Event.lockCleared => true
  | _ => false

/-- Discriminator for the reference-population actions (reference insertions
and distance insertions alike). -/
def isRefPopEv : Event → Bool
  | Event.refInserted _ _ _ => true
  | Event.distancesInserted _ => true
  | _ => false

theorem append_slash_ne_empty (a b : String) : ¬ (a ++ "/" ++ b) = "" := by
  intro hcontra
  have hd := congrArg String.data hcontra
  simp [String.data_append] at hd

/-- C3: over a buffer of NUL-separated tokens, the parser inserts exactly one
record per token preceding the first malformed token, appended in order with
sequenceIndex equal to the 1-based position of the token, emits one step event
per inserted record carrying that position, keeps the pending-changes record
in the position-0 (wip) slot, and discards every token at and after the first
malformed one. -/
theorem processRevision_validRun (v : String → Bool) (snap : Snapshot) (st : LoaderState)
    (h : snap.revParseHead.success = true) :
    (processRevision v snap st).1.cache.commits
        = st.cache.commits
          ++ List.enumFrom 1 ((qsplit (Char.ofNat 0) snap.logBuffer).takeWhile v)
    ∧ (processRevision v snap st).2.filterMap stepIndexOf
        = List.range' 1 ((qsplit (Char.ofNat 0) snap.logBuffer).takeWhile v).length
    ∧ (processRevision v snap st).1.cache.wip.isSome = true := by
  refine ⟨?_, ?_, ?_⟩
  · rw [processRevision_fst_cache, loadReferences_commits, insertLoop_commits,
      updateWip_commits]
  · rw [processRevision_trace]
    rw [List.filterMap_cons, List.filterMap_cons, List.filterMap_append, List.filterMap_append,
      List.filterMap_cons, List.filterMap_append]
    rw [updateWip_evs_success snap _ h]
    rw [insertLoop_snd, loopEventsOf_filterMap_step, enumFromFst]
    rw [filterMap_none stepIndexOf _ (fun e he =>
      refEv_stepIndexOf_none (loadReferences_mem snap _ e he))]
    simp [stepIndexOf]
  · rw [processRevision_fst_cache, loadReferences_wip, insertLoop_wip]
    exact updateWip_wip_some snap _ h

/-- Witness for processRevision_validRun at the concrete two-token
snapshot (valid token then garbage). -/
theorem processRevision_validRun_witness :
    snapOk.revParseHead.success = true
    ∧ ((processRevision isValidCommitToken snapOk stReady).1.cache.commits
        = stReady.cache.commits
          ++ List.enumFrom 1 ((qsplit (Char.ofNat 0) snapOk.logBuffer).takeWhile isValidCommitToken)
      ∧ (processRevision isValidCommitToken snapOk stReady).2.filterMap stepIndexOf
        = List.range' 1
            ((qsplit (Char.ofNat 0) snapOk.logBuffer).takeWhile isValidCommitToken).length
      ∧ (processRevision isValidCommitToken snapOk stReady).1.cache.wip.isSome = true) :=
  ⟨rfl, processRevision_validRun isValidCommitToken snapOk stReady rfl⟩

/-- The snapshot for the C10 over-announcement conjuncts: a log buffer that is
one malformed token followed by a terminating NUL byte. -/
def snapShortBuf : Snapshot := { snapOk with logBuffer := "a\x00" }

/-- C10: the total carried by the loading-started event is the raw NUL-split
token count - the trailing empty token of a terminating NUL and malformed
tokens included - and on the concrete buffer consisting of one malformed token
and a terminating NUL the announced total 2 strictly exceeds the number of
inserted records and emitted step events, both 0. -/
theorem loadingStarted_total_counts_tokens (v : String → Bool) (snap : Snapshot)
    (st : LoaderState) :
    (processRevision v snap st).2[1]?
        = some (Event.loadingStarted ((qsplit (Char.ofNat 0) snap.logBuffer).length))
    ∧ qsplit (Char.ofNat 0) "a\x00" = ["a", ""]
    ∧ (processRevision isValidCommitToken snapShortBuf stReady).2[1]?
        = some (Event.loadingStarted 2)
    ∧ (processRevision isValidCommitToken snapShortBuf stReady).1.cache.commits = []
    ∧ (processRevision isValidCommitToken snapShortBuf stReady).2.filterMap stepIndexOf = [] := by
  refine ⟨?_, by decide, ?_, ?_, ?_⟩
  · rw [processRevision_trace]
    simp
  · rw [processRevision_trace]
    simp
    decide
  · rw [processRevision_fst_cache, loadReferences_commits, insertLoop_commits, updateWip_commits]
    have htw : (qsplit (Char.ofNat 0) snapShortBuf.logBuffer).takeWhile isValidCommitToken
        = [] := by decide
    rw [htw]
    rfl
  · rw [processRevision_trace]
    rw [List.filterMap_cons, List.filterMap_cons, List.filterMap_append, List.filterMap_append,
      List.filterMap_cons, List.filterMap_append]
    rw [updateWip_evs_success snapShortBuf _ rfl]
    rw [insertLoop_snd, loopEventsOf_filterMap_step, enumFromFst]
    rw [filterMap_none stepIndexOf _ (fun e he =>
      refEv_stepIndexOf_none (loadReferences_mem snapShortBuf _ e he))]
    have htw : (qsplit (Char.ofNat 0) snapShortBuf.logBuffer).takeWhile isValidCommitToken
        = [] := by decide
    rw [htw]
    simp [stepIndexOf]

/-- Shape of the processRevision trace when the HEAD lookup succeeds: the two
announcement events, the wip insertion, the ingestion-loop events, the
lock-clearing marker, the reference-population events, and the finish marker,
in that order. -/
theorem processRevision_trace_shape (v : String → Bool) (snap : Snapshot) (st : LoaderState)
    (h : snap.revParseHead.success = true) :
    ∃ L R,
      (processRevision v snap st).2
        = Event.cacheConfigured ((qsplit (Char.ofNat 0) snap.logBuffer).length)
          :: Event.loadingStarted ((qsplit (Char.ofNat 0) snap.logBuffer).length)
          :: Event.wipInserted
          :: (L ++ (Event.lockCleared :: (R ++ [Event.loadingFinished])))
      ∧ L = loopEventsOf (List.enumFrom 1 ((qsplit (Char.ofNat 0) snap.logBuffer).takeWhile v))
      ∧ (∀ e ∈ R, (∃ s t' n, e = Event.refInserted s t' n)
          ∨ (∃ n, e = Event.distancesInserted n)) := by
  refine ⟨(insertLoop v 1 (qsplit (Char.ofNat 0) snap.logBuffer)
      (updateWipRevision snap
        { st.cache with
          configuredTotal := (qsplit (Char.ofNat 0) snap.logBuffer).length }).1).2,
    (loadReferences snap (insertLoop v 1 (qsplit (Char.ofNat 0) snap.logBuffer)
      (updateWipRevision snap
        { st.cache with
          configuredTotal := (qsplit (Char.ofNat 0) snap.logBuffer).length }).1).1).2,
    ?_, ?_, ?_⟩
  · have hT := processRevision_trace v snap st
    rw [updateWip_evs_success snap _ h] at hT
    rw [hT]
    rfl
  · exact insertLoop_snd v _ 1 _
  · exact loadReferences_mem snap _

/-- C6: within one batch-ready callback the actions are ordered as the spec
states - the pending-changes record is inserted (and every wip insertion
precedes every historical insertion), historical insertions follow the buffer
order, the loading-started event carrying the total count sits at trace
position 1 and precedes every step event, the in-progress flag ends up
cleared and the lock-clearing point lies after every step event and before
every reference-population action, reference population follows every
historical insertion, and the loading-finished event is last. -/
theorem processRevision_ordering (v : String → Bool) (snap : Snapshot) (st : LoaderState)
    (h : snap.revParseHead.success = true) :
    Event.wipInserted ∈ (processRevision v snap st).2
    ∧ precedes isWipEv isCommitEv (processRevision v snap st).2 = true
    ∧ (processRevision v snap st).2.filterMap commitEntryOf
        = List.enumFrom 1 ((qsplit (Char.ofNat 0) snap.logBuffer).takeWhile v)
    ∧ (processRevision v snap st).2[1]?
        = some (Event.loadingStarted ((qsplit (Char.ofNat 0) snap.logBuffer).length))
    ∧ precedes isStartedEv isStepEv (processRevision v snap st).2 = true
    ∧ (processRevision v snap st).1.mLocked = false
    ∧ precedes isStepEv isLockEv (processRevision v snap st).2 = true
    ∧ precedes isCommitEv isRefPopEv (processRevision v snap st).2 = true
    ∧ precedes isLockEv isRefPopEv (processRevision v snap st).2 = true
    ∧ (processRevision v snap st).2.getLast? = some Event.loadingFinished := by
  obtain ⟨L, R, hT, hLdef, hRmem⟩ := processRevision_trace_shape v snap st h
  have hLmem : ∀ e ∈ L,
      (∃ i t', e = Event.commitInserted i t') ∨ (∃ i, e = Event.loadingStep i) := by
    intro e he
    rw [hLdef] at he
    exact loopEventsOf_mem _ e he
  have hLnotWip : ∀ e ∈ L, isWipEv e = false :=
    fun e he => loopEv_false_of (hLmem e he) (fun _ _ => rfl) (fun _ => rfl)
  have hLnotStarted : ∀ e ∈ L, isStartedEv e = false :=
    fun e he => loopEv_false_of (hLmem e he) (fun _ _ => rfl) (fun _ => rfl)
  have hLnotLock : ∀ e ∈ L, isLockEv e = false :=
    fun e he => loopEv_false_of (hLmem e he) (fun _ _ => rfl) (fun _ => rfl)
  have hLnotRefPop : ∀ e ∈ L, isRefPopEv e = false :=
    fun e he => loopEv_false_of (hLmem e he) (fun _ _ => rfl) (fun _ => rfl)
  have hRnotWip : ∀ e ∈ R, isWipEv e = false :=
    fun e he => refEv_false_of (hRmem e he) (fun _ _ _ => rfl) (fun _ => rfl)
  have hRnotStarted : ∀ e ∈ R, isStartedEv e = false :=
    fun e he => refEv_false_of (hRmem e he) (fun _ _ _ => rfl) (fun _ => rfl)
  have hRnotStep : ∀ e ∈ R, isStepEv e = false :=
    fun e he => refEv_false_of (hRmem e he) (fun _ _ _ => rfl) (fun _ => rfl)
  have hRnotCommit : ∀ e ∈ R, isCommitEv e = false :=
    fun e he => refEv_false_of (hRmem e he) (fun _ _ _ => rfl) (fun _ => rfl)
  have hRnotLock : ∀ e ∈ R, isLockEv e = false :=
    fun e he => refEv_false_of (hRmem e he) (fun _ _ _ => rfl) (fun _ => rfl)
  refine ⟨?_, ?_, ?_, ?_, ?_, processRevision_mLocked v snap st, ?_, ?_, ?_, ?_⟩
  · rw [hT]; simp
  · have hsplit : (processRevision v snap st).2
        = [Event.cacheConfigured ((qsplit (Char.ofNat 0) snap.logBuffer).length),
            Event.loadingStarted ((qsplit (Char.ofNat 0) snap.logBuffer).length),
            Event.wipInserted]
          ++ (L ++ (Event.lockCleared :: (R ++ [Event.loadingFinished]))) := by
      rw [hT]
      rfl
    rw [hsplit]
    apply precedes_append_of
    · intro e he
      rcases List.mem_cons.mp he with rfl | he
      · rfl
      rcases List.mem_cons.mp he with rfl | he
      · rfl
      rcases List.mem_cons.mp he with rfl | he
      · rfl
      simp at he
    · intro e he
      rcases List.mem_append.mp he with he | he
      · exact hLnotWip e he
      rcases List.mem_cons.mp he with rfl | he
      · rfl
      rcases List.mem_append.mp he with he | he
      · exact hRnotWip e he
      rcases List.mem_cons.mp he with rfl | he
      · rfl
      simp at he
  · rw [hT]
    rw [List.filterMap_cons, List.filterMap_cons, List.filterMap_cons, List.filterMap_append,
      List.filterMap_cons, List.filterMap_append]
    rw [hLdef, loopEventsOf_filterMap_commit]
    rw [filterMap_none commitEntryOf _ (fun e he => refEv_commitEntryOf_none (hRmem e he))]
    simp [commitEntryOf]
  · rw [hT]; simp
  · have hsplit : (processRevision v snap st).2
        = [Event.cacheConfigured ((qsplit (Char.ofNat 0) snap.logBuffer).length),
            Event.loadingStarted ((qsplit (Char.ofNat 0) snap.logBuffer).length)]
          ++ (Event.wipInserted :: (L ++ (Event.lockCleared :: (R ++ [Event.loadingFinished])))) := by
      rw [hT]
      rfl
    rw [hsplit]
    apply precedes_append_of
    · intro e he
      rcases List.mem_cons.mp he with rfl | he
      · rfl
      rcases List.mem_cons.mp he with rfl | he
      · rfl
      simp at he
    · intro e he
      rcases List.mem_cons.mp he with rfl | he
      · rfl
      rcases List.mem_append.mp he with he | he
      · exact hLnotStarted e he
      rcases List.mem_cons.mp he with rfl | he
      · rfl
      rcases List.mem_append.mp he with he | he
      · exact hRnotStarted e he
      rcases List.mem_cons.mp he with rfl | he
      · rfl
      simp at he
  · have hsplit : (processRevision v snap st).2
        = (Event.cacheConfigured ((qsplit (Char.ofNat 0) snap.logBuffer).length)
            :: Event.loadingStarted ((qsplit (Char.ofNat 0) snap.logBuffer).length)
            :: Event.wipInserted :: L)
          ++ (Event.lockCleared :: (R ++ [Event.loadingFinished])) := by
      rw [hT]
      simp
    rw [hsplit]
    apply precedes_append_of
    · intro e he
      rcases List.mem_cons.mp he with rfl | he
      · rfl
      rcases List.mem_cons.mp he with rfl | he
      · rfl
      rcases List.mem_cons.mp he with rfl | he
      · rfl
      exact hLnotLock e he
    · intro e he
      rcases List.mem_cons.mp he with rfl | he
      · rfl
      rcases List.mem_append.mp he with he | he
      · exact hRnotStep e he
      rcases List.mem_cons.mp he with rfl | he
      · rfl
      simp at he
  · have hsplit : (processRevision v snap st).2
        = (Event.cacheConfigured ((qsplit (Char.ofNat 0) snap.logBuffer).length)
            :: Event.loadingStarted ((qsplit (Char.ofNat 0) snap.logBuffer).length)
            :: Event.wipInserted :: (L ++ [Event.lockCleared]))
          ++ (R ++ [Event.loadingFinished]) := by
      rw [hT]
      simp
    rw [hsplit]
    apply precedes_append_of
    · intro e he
      rcases List.mem_cons.mp he with rfl | he
      · rfl
      rcases List.mem_cons.mp he with rfl | he
      · rfl
      rcases List.mem_cons.mp he with rfl | he
      · rfl
      rcases List.mem_append.mp he with he | he
      · exact hLnotRefPop e he
      rcases List.mem_cons.mp he with rfl | he
      · rfl
      simp at he
    · intro e he
      rcases List.mem_append.mp he with he | he
      · exact hRnotCommit e he
      rcases List.mem_cons.mp he with rfl | he
      · rfl
      simp at he
  · have hsplit : (processRevision v snap st).2
        = (Event.cacheConfigured ((qsplit (Char.ofNat 0) snap.logBuffer).length)
            :: Event.loadingStarted ((qsplit (Char.ofNat 0) snap.logBuffer).length)
            :: Event.wipInserted :: (L ++ [Event.lockCleared]))
          ++ (R ++ [Event.loadingFinished]) := by
      rw [hT]
      simp
    rw [hsplit]
    apply precedes_append_of
    · intro e he
      rcases List.mem_cons.mp he with rfl | he
      · rfl
      rcases List.mem_cons.mp he with rfl | he
      · rfl
      rcases List.mem_cons.mp he with rfl | he
      · rfl
      rcases List.mem_append.mp he with he | he
      · exact hLnotRefPop e he
      rcases List.mem_cons.mp he with rfl | he
      · rfl
      simp at he
    · intro e he
      rcases List.mem_append.mp he with he | he
      · exact hRnotLock e he
      rcases List.mem_cons.mp he with rfl | he
      · rfl
      simp at he
  · have hsplit : (processRevision v snap st).2
        = (Event.cacheConfigured ((qsplit (Char.ofNat 0) snap.logBuffer).length)
            :: Event.loadingStarted ((qsplit (Char.ofNat 0) snap.logBuffer).length)
            :: Event.wipInserted :: (L ++ (Event.lockCleared :: R)))
          ++ [Event.loadingFinished] := by
      rw [hT]
      simp
    rw [hsplit]
    exact List.getLast?_concat _

/-- Witness for processRevision_ordering at the concrete snapshot. -/
theorem processRevision_ordering_witness :
    snapOk.revParseHead.success = true
    ∧ Event.wipInserted ∈ (processRevision isValidCommitToken snapOk stReady).2
    ∧ precedes isWipEv isCommitEv (processRevision isValidCommitToken snapOk stReady).2 = true
    ∧ (processRevision isValidCommitToken snapOk stReady).2.getLast?
        = some Event.loadingFinished :=
  ⟨rfl,
    (processRevision_ordering isValidCommitToken snapOk stReady rfl).1,
    (processRevision_ordering isValidCommitToken snapOk stReady rfl).2.1,
    (processRevision_ordering isValidCommitToken snapOk stReady rfl).2.2.2.2.2.2.2.2.2⟩

/-- The cache produced by the batch-ready callback depends only on the
snapshot and on the incoming cache, never on the rest of the loader state. -/
theorem processRevision_cache_congr (v : String → Bool) (snap : Snapshot)
    (st st' : LoaderState) (h : st.cache = st'.cache) :
    (processRevision v snap st).1.cache = (processRevision v snap st').1.cache := by
  rw [processRevision_fst_cache, processRevision_fst_cache, h]

/-- On the success path, loadRepository clears the cache, takes the lock and
stores the resolved root. -/
theorem loadRepository_success (snap : Snapshot) (st : LoaderState)
    (h1 : st.mLocked = false) (h2 : ¬ st.workingDir = "")
    (h3 : snap.revParseCdup.success = true) :
    loadRepository snap st
      = (true,
        { mLocked := true,
          workingDir := st.workingDir ++ "/" ++ qtrim snap.revParseCdup.output,
          cache := {} },
        ["git rev-parse --show-cdup"]) := by
  simp [loadRepository, configureRepoDirectory, h1, h2, h3]

/-- C9: against one fixed snapshot (identical outputs of all external
commands), running a second full load cycle on top of the state a first full
cycle left behind reproduces the identical cache - same commit records with
the same sequence indices, same reference classifications, same distances. -/
theorem load_cycle_idempotent (v : String → Bool) (snap : Snapshot) (st : LoaderState)
    (h1 : st.mLocked = false) (h2 : ¬ st.workingDir = "")
    (h3 : snap.revParseCdup.success = true) :
    (fullLoadCycle v snap ((fullLoadCycle v snap st).1)).1.cache
      = ((fullLoadCycle v snap st).1).cache := by
  have hcyc : ∀ s : LoaderState, s.mLocked = false → ¬ s.workingDir = "" →
      (fullLoadCycle v snap s).1
        = (processRevision v snap
            { mLocked := true,
              workingDir := s.workingDir ++ "/" ++ qtrim snap.revParseCdup.output,
              cache := {} }).1 := by
    intro s hs1 hs2
    rw [fullLoadCycle, loadRepository_success snap s hs1 hs2 h3]
    simp
  rw [hcyc st h1 h2]
  rw [hcyc _ (processRevision_mLocked v snap _)
    (by rw [processRevision_workingDir]; exact append_slash_ne_empty _ _)]
  exact processRevision_cache_congr v snap _ _ rfl

/-- Witness for load_cycle_idempotent at the concrete ready state and
all-success snapshot. -/
theorem load_cycle_idempotent_witness :
    stReady.mLocked = false ∧ ¬ stReady.workingDir = ""
    ∧ snapOk.revParseCdup.success = true
    ∧ (fullLoadCycle isValidCommitToken snapOk
        ((fullLoadCycle isValidCommitToken snapOk stReady).1)).1.cache
      = ((fullLoadCycle isValidCommitToken snapOk stReady).1).cache :=
  ⟨rfl, by decide, rfl,
    load_cycle_idempotent isValidCommitToken snapOk stReady rfl (by decide) rfl⟩

end GitQlient
